import Mathlib

/- Shallow embedding of src/src/tensor.h: a minimal tensor compute engine with
broadcasting arithmetic, batched matrix multiplication and a rudimentary
reverse-mode autograd graph. Device buffers become `List Int`; a bulk-parallel
kernel launch over `n` output elements becomes a map over `List.range n`. -/

/-- A tensor value: the device buffer contents together with the shape and
stride metadata (`Tensor<T>` fields `data`, `shape`, `strides`). -/
structure TensorV where
  data : List Int
  shape : List Nat
  strides : List Nat
deriving Repr, DecidableEq

/-- The stride-computing loop of the shape-only constructor (tensor.h 209-213):
walks the shape from the right, carrying the running stride. Returns the final
running stride (the element count) together with the stride list. -/
def densePair : List Nat → Nat × List Nat
  | [] => (1, [])
  | d :: rest =>
    let p := densePair rest
    (p.1 * d, p.1 :: p.2)

/-- Row-major strides as computed by the shape-only constructor. -/
def denseStrides (s : List Nat) : List Nat := (densePair s).2

/-- Number of elements: the product of the shape (tensor.h 205). -/
def nElements (s : List Nat) : Nat := s.prod

/-- `get_indices` (tensor.h 14-26): decode a flat output index into
per-dimension coordinates via the output strides, and accumulate each
operand's flat offset through that operand's effective strides. -/
def get_indices : List Nat → List Nat → List Nat → Nat → Nat × Nat
  | st1 :: r1, st2 :: r2, st :: r, rem =>
    let dim := rem / st
    let p := get_indices r1 r2 r (rem - dim * st)
    (dim * st1 + p.1, dim * st2 + p.2)
  | _, _, _, _ => (0, 0)

/-- `prepare_broadcast` (tensor.h 161-187), dimension by dimension over the two
operands' shapes and strides: equal sizes keep both real strides; otherwise the
larger side keeps its stride, the smaller side's effective stride is left at
its zero initialisation, and the output shape takes the larger size. Returns
(tensor1 effective strides, tensor2 effective strides, output shape). -/
def prepareBroadcast : List Nat → List Nat → List Nat → List Nat → List Nat × List Nat × List Nat
  | d1 :: sh1, s1 :: st1, d2 :: sh2, s2 :: st2 =>
    let r := prepareBroadcast sh1 st1 sh2 st2
    if d1 = d2 then (s1 :: r.1, s2 :: r.2.1, d1 :: r.2.2)
    else if d2 < d1 then (s1 :: r.1, 0 :: r.2.1, d1 :: r.2.2)
    else (0 :: r.1, s2 :: r.2.1, d2 :: r.2.2)
  | _, _, _, _ => ([], [], [])

/-- The shared code path of the `add`, `subtract`, `multiply` and `divide`
kernels (tensor.h 28-74) behind the broadcast resolution of the `+ - * /`
operators (tensor.h 240-276): one task per output element, each decoding its
flat index through `get_indices` and combining the two located operand
elements with the scalar operation. -/
def broadcastOp (f : Int → Int → Int) (t1 t2 : TensorV) : TensorV :=
  let r := prepareBroadcast t1.shape t1.strides t2.shape t2.strides
  let sh := r.2.2
  let outStrides := denseStrides sh
  { data := (List.range (nElements sh)).map (fun k =>
      let p := get_indices r.1 r.2.1 outStrides k
      f (t1.data.getD p.1 0) (t2.data.getD p.2 0)),
    shape := sh,
    strides := outStrides }

/-- `operator+` (tensor.h 240-248), value part. -/
def addV (t1 t2 : TensorV) : TensorV := broadcastOp (· + ·) t1 t2

/-- `operator-` (tensor.h 249-257), value part. -/
def subV (t1 t2 : TensorV) : TensorV := broadcastOp (· - ·) t1 t2

/-- `operator*` (tensor.h 258-267), value part. -/
def mulV (t1 t2 : TensorV) : TensorV := broadcastOp (· * ·) t1 t2

/-- `operator/` (tensor.h 268-276), value part. -/
def divV (t1 t2 : TensorV) : TensorV := broadcastOp (· / ·) t1 t2

/-- Output shape of `mm` (tensor.h 278-279): tensor1's shape with its last
entry replaced by tensor2's last entry. -/
def mmShape (sh1 sh2 : List Nat) : List Nat :=
  sh1.set (sh1.length - 1) (sh2.getD (sh2.length - 1) 0)

/-- `mm` and the `matrix_multiply` kernel (tensor.h 76-91, 277-296): one task
per (batch, row, column) triple; the batch offset of each operand is its dense
per-matrix extent times the batch index, while the row, column and shared-dim
offsets go through the operand's own strides. -/
def mmT (t1 t2 : TensorV) : TensorV :=
  let sh := mmShape t1.shape t2.shape
  let rank := sh.length
  let height := sh.getD (rank - 2) 0
  let width := sh.getD (rank - 1) 0
  let sharedDim := t1.shape.getD (t1.shape.length - 1) 0
  { data := (List.range (nElements sh)).map (fun k =>
      let z := k / (height * width)
      let rem := k % (height * width)
      let row := rem / width
      let col := rem % width
      let start1 := z * height * sharedDim + row * t1.strides.getD (rank - 2) 0
      let start2 := z * width * sharedDim + col * t2.strides.getD (rank - 1) 0
      (List.range sharedDim).foldl (fun acc i =>
        acc + t1.data.getD (start1 + i * t1.strides.getD (rank - 1) 0) 0 *
              t2.data.getD (start2 + i * t2.strides.getD (rank - 2) 0) 0) 0),
    shape := sh,
    strides := denseStrides sh }

/-- Scalar indexing `operator[]` (tensor.h 215-220): inner product of the
strides with the coordinates locates the element in the buffer. -/
def indexT (t : TensorV) (coords : List Nat) : Int :=
  t.data.getD (List.sum (List.zipWith (· * ·) t.strides coords)) 0

/-- `transpose` (tensor.h 226-233): copy the tensor and swap the two chosen
shape entries and the two chosen stride entries; the buffer is shared. -/
def transposeT (t : TensorV) (d1 d2 : Nat) : TensorV :=
  { t with
    shape := (t.shape.set d1 (t.shape.getD d2 0)).set d2 (t.shape.getD d1 0),
    strides := (t.strides.set d1 (t.strides.getD d2 0)).set d2 (t.strides.getD d1 0) }

/-- `from_vector` (tensor.h 341-348): a dense tensor holding the given values. -/
def fromVector (v : List Int) (sh : List Nat) : TensorV :=
  { data := v, shape := sh, strides := denseStrides sh }

/-- The serial `sum` kernel (tensor.h 101-110): a single task accumulates the
first `n` buffer elements. -/
def sumKernel (n : Nat) (input : List Int) : Int :=
  (List.range n).foldl (fun acc i => acc + input.getD i 0) 0

/-- The `relu_d` kernel (tensor.h 120-126) launched with one block of one
thread, as the `sum` friend does (tensor.h 309): only the task with index 0
runs, writing `input[0] > 0 ? 1 : 0` when `0 < n`. -/
def reluDSingleThread (n : Nat) (input output : List Int) : List Int :=
  if 0 < n then output.set 0 (if 0 < input.getD 0 0 then 1 else 0) else output

/-- The `sum` friend (tensor.h 307-311): allocates a tensor of shape
`[1, ..., 1]` (one entry per input dimension) and launches the `relu_d`
kernel — not the `sum` kernel — with a single thread on the input buffer. -/
def sumOp (t : TensorV) : TensorV :=
  let sh := List.replicate t.shape.length 1
  { data := reluDSingleThread (nElements t.shape) t.data (List.replicate (nElements sh) 0),
    shape := sh,
    strides := denseStrides sh }

/-- The autograd node hierarchy (tensor.h 128-158): `AccumulateGradients`
appends each received gradient to its tensor list; `MultiplyBackward` stores
the two operand tensors of the multiplication and optional references to the
two parents' nodes (null when an operand has no node). -/
inductive BackwardNode where
  | accumulate (tensors : List TensorV)
  | multiplyBackward (t1 t2 : TensorV) (p0 p1 : Option BackwardNode)
deriving Repr

/-- The `tensors` field of a node as `MultiplyBackward`'s constructor fills it
(tensor.h 132, 153): the operand list for a multiply node, the accumulated
gradients for a leaf. -/
def nodeTensors : BackwardNode → List TensorV
  | .accumulate ts => ts
  | .multiplyBackward t1 t2 _ _ => [t1, t2]

/-- Invoking a node with an upstream gradient (tensor.h 144-146, 154-157):
a leaf pushes the gradient onto its list; a multiply node forwards
`g * tensors[1]` to parent 0 and `g * tensors[0]` to parent 1, each only when
that parent reference is non-null. The updated graph is returned. -/
def callNode (g : TensorV) : BackwardNode → BackwardNode
  | .accumulate ts => .accumulate (ts ++ [g])
  | .multiplyBackward t1 t2 p0 p1 =>
    .multiplyBackward t1 t2
      (match p0 with
       | none => none
       | some n0 => some (callNode (mulV g t2) n0))
      (match p1 with
       | none => none
       | some n1 => some (callNode (mulV g t1) n1))

/-- A full tensor: its value part plus the optional autograd node reference
(`Backward<T>* backward`, tensor.h 199). -/
structure TensorG where
  val : TensorV
  backward : Option BackwardNode

/-- Errors of `gradients()` (tensor.h 234-236): dereferencing a null node, or
reading `tensors[0]` of a node whose list is empty. -/
inductive GradError where
  | nullNode
  | noAccumulated
deriving Repr, DecidableEq

/-- `gradients()` (tensor.h 234-236): returns `backward->tensors[0]`; a null
`backward` or an empty tensor list is a contract error. -/
def gradientsG (t : TensorG) : Except GradError TensorV :=
  match t.backward with
  | none => .error .nullNode
  | some b =>
    match nodeTensors b with
    | [] => .error .noAccumulated
    | g :: _ => .ok g

/-- `requires_gradients` (tensor.h 237-239): attach a fresh accumulating leaf. -/
def requiresGradients (t : TensorG) : TensorG :=
  { t with backward := some (.accumulate []) }

/-- `operator+` at the graph level (tensor.h 240-248): the result tensor is
freshly constructed and its `backward` is never set. -/
def addG (a b : TensorG) : TensorG := ⟨addV a.val b.val, none⟩

/-- `operator-` at the graph level (tensor.h 249-257): no node is attached. -/
def subG (a b : TensorG) : TensorG := ⟨subV a.val b.val, none⟩

/-- `operator/` at the graph level (tensor.h 268-276): no node is attached. -/
def divG (a b : TensorG) : TensorG := ⟨divV a.val b.val, none⟩

/-- `mm` at the graph level (tensor.h 277-296): no node is attached. -/
def mmG (a b : TensorG) : TensorG := ⟨mmT a.val b.val, none⟩

/-- `operator*` at the graph level (tensor.h 258-267): the product gets a
`MultiplyBackward` node holding both operand tensors and both operands'
(possibly null) node references. -/
def mulG (a b : TensorG) : TensorG :=
  ⟨mulV a.val b.val, some (.multiplyBackward a.val b.val a.backward b.backward)⟩

/-- The stride-addressed dot product the specification describes for one
output element of `mm`: split the coordinates into batch part, row and
column, and address every factor — batch part included — through the
operand's own stride vector. -/
def stridedDotVal (t1 t2 : TensorV) (coords : List Nat) : Int :=
  let rank := t1.shape.length
  let b := coords.take (rank - 2)
  let r := coords.getD (rank - 2) 0
  let c := coords.getD (rank - 1) 0
  let sharedDim := t1.shape.getD (rank - 1) 0
  (List.range sharedDim).foldl (fun acc i =>
    acc + t1.data.getD (List.sum (List.zipWith (· * ·) t1.strides (b ++ [r, i]))) 0 *
          t2.data.getD (List.sum (List.zipWith (· * ·) t2.strides (b ++ [i, c]))) 0) 0

/-- All coordinate vectors of a shape, row-major order. -/
def allCoords : List Nat → List (List Nat)
  | [] => [[]]
  | d :: rest => (List.range d).flatMap (fun i => (allCoords rest).map (fun cs => i :: cs))

/-- Whether every element of `mm t1 t2` agrees with the fully stride-addressed
dot product of the corresponding row of `t1` and column of `t2`. -/
def mmMatchesStridedDot (t1 t2 : TensorV) : Bool :=
  (allCoords (mmShape t1.shape t2.shape)).all
    (fun coords => indexT (mmT t1 t2) coords == stridedDotVal t1 t2 coords)

/-- C1: the public `sum` operation, applied to the tensor [1, 2, 3], returns
the shape-[1] tensor [1] — the single-thread `relu_d` launch of tensor.h 309
writes `input[0] > 0 ? 1 : 0` — while the serial accumulation kernel of
tensor.h 101-110 (which the friend never calls) yields 6, the sum of all
elements the claim demands. -/
theorem C1_sum_friend_launches_relu_d :
    sumOp (fromVector [1, 2, 3] [3]) = fromVector [1] [1] ∧
    sumKernel 3 [1, 2, 3] = 6 := by
  constructor
  · decide
  · decide

/-- C5: add, sub, div and matmul attach no autograd node to their result, and
reading gradients from such a result is the null-node contract error. -/
theorem C5_non_differentiable_ops (a b : TensorG) :
    (addG a b).backward = none ∧ gradientsG (addG a b) = .error .nullNode ∧
    (subG a b).backward = none ∧ gradientsG (subG a b) = .error .nullNode ∧
    (divG a b).backward = none ∧ gradientsG (divG a b) = .error .nullNode ∧
    (mmG a b).backward = none ∧ gradientsG (mmG a b) = .error .nullNode :=
  ⟨rfl, rfl, rfl, rfl, rfl, rfl, rfl, rfl⟩

/-- C6: mm on [[1,2],[3,4]] and [[5,6],[7,8]] yields [[19,22],[43,50]]. -/
theorem C6_mm_two_by_two :
    mmT (fromVector [1, 2, 3, 4] [2, 2]) (fromVector [5, 6, 7, 8] [2, 2]) =
      fromVector [19, 22, 43, 50] [2, 2] := by decide

/-- C10: the product of any two tensors always carries a MultiplyBackward
node, and gradients() on it succeeds, returning the first operand itself
(backward->tensors[0] is the stored operand list's head), not an error and
not an accumulated gradient. -/
theorem C10_mul_gradients_return_first_operand (a b : TensorG) :
    (mulG a b).backward =
      some (.multiplyBackward a.val b.val a.backward b.backward) ∧
    gradientsG (mulG a b) = .ok a.val :=
  ⟨rfl, rfl⟩

/-- C3: for operands freshly marked requires_gradients, invoking the product's
backward node with upstream gradient g appends g * B as the first (and only)
gradient in A's leaf and g * A in B's leaf; and a multiply node with null
parent references forwards nothing. -/
theorem C3_multiply_backward_product_rule (a b : TensorG) (g : TensorV) :
    ((mulG (requiresGradients a) (requiresGradients b)).backward.map (callNode g) =
      some (.multiplyBackward a.val b.val
        (some (.accumulate [mulV g b.val])) (some (.accumulate [mulV g a.val])))) ∧
    (∀ t1 t2 : TensorV, callNode g (.multiplyBackward t1 t2 none none) =
      .multiplyBackward t1 t2 none none) :=
  ⟨rfl, fun _ _ => rfl⟩

theorem densePair_fst (s : List Nat) : (densePair s).1 = s.prod := by
  induction s with
  | nil => rfl
  | cons d rest ih => simp [densePair, ih, List.prod_cons, Nat.mul_comm]

theorem denseStrides_cons (d : Nat) (rest : List Nat) :
    denseStrides (d :: rest) = rest.prod :: denseStrides rest := by
  simp [denseStrides, densePair, densePair_fst]

theorem denseStrides_length (s : List Nat) : (denseStrides s).length = s.length := by
  induction s with
  | nil => rfl
  | cons d rest ih => simp [denseStrides_cons, ih]

theorem denseStrides_getD (s : List Nat) (i : Nat) (h : i < s.length) :
    (denseStrides s).getD i 0 = (s.drop (i + 1)).prod := by
  induction s generalizing i with
  | nil => simp at h
  | cons d rest ih =>
    cases i with
    | zero => simp [denseStrides_cons]
    | succ n =>
      rw [denseStrides_cons, List.getD_cons_succ, List.drop_succ_cons]
      exact ih n (by simpa using h)

/-- C8: the strides computed by the shape-only constructor are row-major:
the last stride is 1 and each stride is the next stride times the next
dimension size. -/
theorem C8_constructor_strides_row_major (s : List Nat) (hne : s ≠ [])
    (hpos : ∀ d ∈ s, 0 < d) :
    (denseStrides s).getD (s.length - 1) 0 = 1 ∧
    ∀ i, i + 1 < s.length →
      (denseStrides s).getD i 0 =
        (denseStrides s).getD (i + 1) 0 * s.getD (i + 1) 0 := by
  constructor
  · have hlen : 0 < s.length := List.length_pos.mpr hne
    rw [denseStrides_getD s (s.length - 1) (by omega)]
    rw [List.drop_eq_nil_of_le (by omega)]
    exact List.prod_nil
  · intro i hi
    rw [denseStrides_getD s i (by omega), denseStrides_getD s (i + 1) hi]
    have hdrop : s.drop (i + 1) = s.getD (i + 1) 0 :: s.drop (i + 2) := by
      rw [List.drop_eq_getElem_cons hi, List.getD_eq_getElem s 0 hi]
    rw [hdrop, List.prod_cons, Nat.mul_comm]

/-- Closed instance of C8 at the shape [2, 3, 4]. -/
theorem C8_constructor_strides_row_major_witness :
    (denseStrides [2, 3, 4]).getD ([2, 3, 4].length - 1) 0 = 1 ∧
    (denseStrides [2, 3, 4]).getD 0 0 =
      (denseStrides [2, 3, 4]).getD 1 0 * [2, 3, 4].getD 1 0 :=
  ⟨(C8_constructor_strides_row_major [2, 3, 4] (by decide) (by decide)).1,
   (C8_constructor_strides_row_major [2, 3, 4] (by decide) (by decide)).2 0 (by decide)⟩

theorem prepareBroadcast_getD (sh1 st1 sh2 st2 : List Nat) (i : Nat)
    (h1 : st1.length = sh1.length) (h2 : sh2.length = sh1.length)
    (h3 : st2.length = sh1.length) (hi : i < sh1.length) :
    (prepareBroadcast sh1 st1 sh2 st2).1.getD i 0 =
      (if sh2.getD i 0 ≤ sh1.getD i 0 then st1.getD i 0 else 0) ∧
    (prepareBroadcast sh1 st1 sh2 st2).2.1.getD i 0 =
      (if sh1.getD i 0 ≤ sh2.getD i 0 then st2.getD i 0 else 0) ∧
    (prepareBroadcast sh1 st1 sh2 st2).2.2.getD i 0 =
      max (sh1.getD i 0) (sh2.getD i 0) := by
  induction sh1 generalizing st1 sh2 st2 i with
  | nil => simp at hi
  | cons d1 t1 ih =>
    rcases st1 with _ | ⟨s1, u1⟩
    · simp at h1
    rcases sh2 with _ | ⟨d2, t2⟩
    · simp at h2
    rcases st2 with _ | ⟨s2, u2⟩
    · simp at h3
    have h1' : u1.length = t1.length := by simpa using h1
    have h2' : t2.length = t1.length := by simpa using h2
    have h3' : u2.length = t1.length := by simpa using h3
    cases i with
    | zero =>
      rcases Nat.lt_trichotomy d1 d2 with h | h | h
      · rw [prepareBroadcast]
        rw [if_neg (by omega), if_neg (by omega)]
        simp [Nat.le_of_lt h, Nat.max_eq_right (Nat.le_of_lt h), Nat.not_le.mpr h]
      · subst h
        rw [prepareBroadcast, if_pos rfl]
        simp
      · rw [prepareBroadcast]
        rw [if_neg (by omega), if_pos h]
        simp [Nat.le_of_lt h, Nat.max_eq_left (Nat.le_of_lt h), Nat.not_le.mpr h]
    | succ n =>
      have hn : n < t1.length := by simpa using hi
      have := ih u1 t2 u2 n h1' h2' h3' hn
      rcases Nat.lt_trichotomy d1 d2 with h | h | h
      · rw [prepareBroadcast, if_neg (by omega), if_neg (by omega)]
        simpa using this
      · subst h
        rw [prepareBroadcast, if_pos rfl]
        simpa using this
      · rw [prepareBroadcast, if_neg (by omega), if_pos h]
        simpa using this

/-- C2: per dimension, the broadcast resolver keeps both real strides when the
sizes agree; on a mismatch the larger side keeps its stride, the smaller
side's effective stride is 0, and the output shape takes the larger size.
Combining dense shapes [2,3] and [1,3] yields output shape [2,3] with the
size-1 operand's strides forced to [0,1], so its single row is reused. -/
theorem C2_broadcast_stride_rule :
    (∀ (sh1 st1 sh2 st2 : List Nat) (i : Nat),
      st1.length = sh1.length → sh2.length = sh1.length → st2.length = sh1.length →
      i < sh1.length →
      (sh1.getD i 0 = sh2.getD i 0 →
        (prepareBroadcast sh1 st1 sh2 st2).1.getD i 0 = st1.getD i 0 ∧
        (prepareBroadcast sh1 st1 sh2 st2).2.1.getD i 0 = st2.getD i 0 ∧
        (prepareBroadcast sh1 st1 sh2 st2).2.2.getD i 0 = sh1.getD i 0) ∧
      (sh2.getD i 0 < sh1.getD i 0 →
        (prepareBroadcast sh1 st1 sh2 st2).1.getD i 0 = st1.getD i 0 ∧
        (prepareBroadcast sh1 st1 sh2 st2).2.1.getD i 0 = 0 ∧
        (prepareBroadcast sh1 st1 sh2 st2).2.2.getD i 0 = sh1.getD i 0) ∧
      (sh1.getD i 0 < sh2.getD i 0 →
        (prepareBroadcast sh1 st1 sh2 st2).1.getD i 0 = 0 ∧
        (prepareBroadcast sh1 st1 sh2 st2).2.1.getD i 0 = st2.getD i 0 ∧
        (prepareBroadcast sh1 st1 sh2 st2).2.2.getD i 0 = sh2.getD i 0)) ∧
    (prepareBroadcast [2, 3] (denseStrides [2, 3]) [1, 3] (denseStrides [1, 3]) =
      ([3, 1], [0, 1], [2, 3]) ∧
    addV (fromVector [1, 2, 3, 4, 5, 6] [2, 3]) (fromVector [10, 20, 30] [1, 3]) =
      fromVector [11, 22, 33, 14, 25, 36] [2, 3]) := by
  constructor
  · intro sh1 st1 sh2 st2 i h1 h2 h3 hi
    obtain ⟨e1, e2, e3⟩ := prepareBroadcast_getD sh1 st1 sh2 st2 i h1 h2 h3 hi
    refine ⟨fun he => ?_, fun hgt => ?_, fun hlt => ?_⟩
    · rw [e1, e2, e3, if_pos (by omega), if_pos (by omega)]
      exact ⟨rfl, rfl, by omega⟩
    · rw [e1, e2, e3, if_pos (by omega), if_neg (by omega)]
      exact ⟨rfl, rfl, by omega⟩
    · rw [e1, e2, e3, if_neg (by omega), if_pos (by omega)]
      exact ⟨rfl, rfl, by omega⟩
  · exact ⟨by decide, by decide⟩

/-- Closed instance of C2 at shapes [2,3] and [1,3], dimension 0 (the
mismatched axis): the larger operand keeps stride 3, the size-1 operand's
stride is forced to 0, and the output size is 2. -/
theorem C2_broadcast_stride_rule_witness :
    (prepareBroadcast [2, 3] [3, 1] [1, 3] [3, 1]).1.getD 0 0 = [3, 1].getD 0 0 ∧
    (prepareBroadcast [2, 3] [3, 1] [1, 3] [3, 1]).2.1.getD 0 0 = 0 ∧
    (prepareBroadcast [2, 3] [3, 1] [1, 3] [3, 1]).2.2.getD 0 0 = [2, 3].getD 0 0 :=
  (C2_broadcast_stride_rule.1 [2, 3] [3, 1] [1, 3] [3, 1] 0 rfl rfl rfl
    (by decide)).2.1 (by decide)

theorem set_swap_getElem? {α : Type _} (l : List α) (d : α) (i j k : Nat)
    (hi : i < l.length) (hj : j < l.length) :
    ((l.set i (l.getD j d)).set j (l.getD i d))[k]? =
      (if j = k then some (l.getD i d)
       else if i = k then some (l.getD j d) else l[k]?) := by
  rw [List.getElem?_set, List.getElem?_set]
  by_cases hjk : j = k
  · subst hjk
    simp [hj, List.length_set]
  · by_cases hik : i = k
    · subst hik
      simp [hjk, hi]
    · simp [hjk, hik]

theorem set_swap_involutive {α : Type _} (l : List α) (d : α) (i j : Nat)
    (hi : i < l.length) (hj : j < l.length) :
    (((l.set i (l.getD j d)).set j (l.getD i d)).set i
        (((l.set i (l.getD j d)).set j (l.getD i d)).getD j d)).set j
        (((l.set i (l.getD j d)).set j (l.getD i d)).getD i d) = l := by
  set l1 := (l.set i (l.getD j d)).set j (l.getD i d) with hl1
  have hlen : l1.length = l.length := by simp [hl1]
  have hgj : l1.getD j d = l.getD i d := by
    rw [List.getD_eq_getElem?_getD, set_swap_getElem? l d i j j hi hj, if_pos rfl]
    rfl
  have hgi : l1.getD i d = l.getD j d := by
    rw [List.getD_eq_getElem?_getD, set_swap_getElem? l d i j i hi hj]
    by_cases hij : j = i
    · subst hij
      simp
    · rw [if_neg hij, if_pos rfl]
      rfl
  apply List.ext_getElem?
  intro k
  rw [set_swap_getElem? l1 d i j k (by omega) (by omega)]
  by_cases hjk : j = k
  · subst hjk
    rw [if_pos rfl, hgi, List.getD_eq_getElem l d hj, List.getElem?_eq_getElem hj]
  · by_cases hik : i = k
    · subst hik
      rw [if_neg hjk, if_pos rfl, hgj, List.getD_eq_getElem l d hi,
        List.getElem?_eq_getElem hi]
    · rw [if_neg hjk, if_neg hik, hl1, set_swap_getElem? l d i j k hi hj,
        if_neg hjk, if_neg hik]

/-- C9: transposing twice along the same pair of valid dimensions restores
both the shape and the strides. -/
theorem C9_transpose_involution (t : TensorV) (i j : Nat)
    (hlen : t.strides.length = t.shape.length)
    (hi : i < t.shape.length) (hj : j < t.shape.length) :
    (transposeT (transposeT t i j) i j).shape = t.shape ∧
    (transposeT (transposeT t i j) i j).strides = t.strides := by
  constructor
  · exact set_swap_involutive t.shape 0 i j hi hj
  · exact set_swap_involutive t.strides 0 i j (by omega) (by omega)

/-- Closed instance of C9 at a 2x3 tensor transposed twice along (0, 1). -/
theorem C9_transpose_involution_witness :
    (transposeT (transposeT (fromVector [1, 2, 3, 4, 5, 6] [2, 3]) 0 1) 0 1).shape =
      (fromVector [1, 2, 3, 4, 5, 6] [2, 3]).shape ∧
    (transposeT (transposeT (fromVector [1, 2, 3, 4, 5, 6] [2, 3]) 0 1) 0 1).strides =
      (fromVector [1, 2, 3, 4, 5, 6] [2, 3]).strides :=
  C9_transpose_involution (fromVector [1, 2, 3, 4, 5, 6] [2, 3]) 0 1
    (by decide) (by decide) (by decide)

theorem prepareBroadcast_eq_shape (s st1 st2 : List Nat)
    (h1 : st1.length = s.length) (h2 : st2.length = s.length) :
    prepareBroadcast s st1 s st2 = (st1, st2, s) := by
  induction s generalizing st1 st2 with
  | nil =>
    rw [List.length_nil, List.length_eq_zero] at h1 h2
    subst h1; subst h2
    rfl
  | cons d rest ih =>
    rcases st1 with _ | ⟨s1, u1⟩
    · simp at h1
    rcases st2 with _ | ⟨s2, u2⟩
    · simp at h2
    rw [prepareBroadcast, if_pos rfl, ih u1 u2 (by simpa using h1) (by simpa using h2)]

theorem get_indices_dense (s : List Nat) (k : Nat) (hk : k < s.prod) :
    get_indices (denseStrides s) (denseStrides s) (denseStrides s) k = (k, k) := by
  induction s generalizing k with
  | nil =>
    have hk0 : k = 0 := by simpa [List.prod_nil] using Nat.lt_one_iff.mp (by simpa using hk)
    subst hk0
    rfl
  | cons d rest ih =>
    rw [denseStrides_cons, get_indices]
    have hp : 0 < rest.prod := by
      rcases Nat.eq_zero_or_pos rest.prod with h0 | h0
      · rw [List.prod_cons, h0, Nat.mul_zero] at hk
        omega
      · exact h0
    have hdm := Nat.div_add_mod k rest.prod
    have hsub : k - k / rest.prod * rest.prod = k % rest.prod := by
      rw [Nat.mul_comm]
      omega
    rw [hsub, ih (k % rest.prod) (Nat.mod_lt k hp)]
    have hx : k / rest.prod * rest.prod + k % rest.prod = k := by
      rw [Nat.mul_comm]
      omega
    rw [hx]

theorem map_range_getD (g : Nat → Int) (n k : Nat) (hk : k < n) :
    ((List.range n).map g).getD k 0 = g k := by
  rw [List.getD_eq_getElem?_getD, List.getElem?_map, List.getElem?_range hk]
  rfl

/-- Plain elementwise arithmetic, position by position. Modelled from the
spec: the comparison point of the refinement claim for equal-shape operands. -/
def elementwiseOp (f : Int → Int → Int) (t1 t2 : TensorV) : TensorV :=
  { data := List.zipWith f t1.data t2.data, shape := t1.shape, strides := t1.strides }

theorem broadcastOp_dense (f : Int → Int → Int) (d1 d2 : List Int) (s : List Nat)
    (h1 : d1.length = s.prod) (h2 : d2.length = s.prod) :
    broadcastOp f ⟨d1, s, denseStrides s⟩ ⟨d2, s, denseStrides s⟩ =
      ⟨List.zipWith f d1 d2, s, denseStrides s⟩ := by
  unfold broadcastOp
  rw [prepareBroadcast_eq_shape s (denseStrides s) (denseStrides s)
    (denseStrides_length s) (denseStrides_length s)]
  simp only [TensorV.mk.injEq, and_true]
  apply List.ext_getElem
  · simp [nElements, h1, h2]
  · intro n hn1 hn2
    have hn : n < s.prod := by simpa [nElements] using hn1
    rw [List.getElem_map, List.getElem_range, get_indices_dense s n hn,
      List.getElem_zipWith]
    simp only []
    rw [List.getD_eq_getElem d1 0 (by omega), List.getD_eq_getElem d2 0 (by omega)]

/-- C7: on operands of identical shape with dense row-major strides, the
broadcast code path of add, sub, mul and div equals plain position-by-position
elementwise arithmetic: the flat-index decode through the output strides
followed by the per-operand stride sums is the identity in this case. -/
theorem C7_equal_shape_broadcast_is_elementwise (t1 t2 : TensorV)
    (hsh : t2.shape = t1.shape)
    (hst1 : t1.strides = denseStrides t1.shape)
    (hst2 : t2.strides = denseStrides t2.shape)
    (hd1 : t1.data.length = t1.shape.prod)
    (hd2 : t2.data.length = t2.shape.prod) :
    addV t1 t2 = elementwiseOp (· + ·) t1 t2 ∧
    subV t1 t2 = elementwiseOp (· - ·) t1 t2 ∧
    mulV t1 t2 = elementwiseOp (· * ·) t1 t2 ∧
    divV t1 t2 = elementwiseOp (· / ·) t1 t2 := by
  rcases t1 with ⟨d1, s1, u1⟩
  rcases t2 with ⟨d2, s2, u2⟩
  simp only at hsh hst1 hst2 hd1 hd2
  subst hsh
  subst hst1
  subst hst2
  exact ⟨broadcastOp_dense _ d1 d2 _ hd1 hd2, broadcastOp_dense _ d1 d2 _ hd1 hd2,
    broadcastOp_dense _ d1 d2 _ hd1 hd2, broadcastOp_dense _ d1 d2 _ hd1 hd2⟩

/-- Closed instance of C7 at two dense shape-[2] tensors. -/
theorem C7_equal_shape_broadcast_is_elementwise_witness :
    addV (fromVector [1, 2] [2]) (fromVector [3, 4] [2]) =
      elementwiseOp (· + ·) (fromVector [1, 2] [2]) (fromVector [3, 4] [2]) ∧
    subV (fromVector [1, 2] [2]) (fromVector [3, 4] [2]) =
      elementwiseOp (· - ·) (fromVector [1, 2] [2]) (fromVector [3, 4] [2]) ∧
    mulV (fromVector [1, 2] [2]) (fromVector [3, 4] [2]) =
      elementwiseOp (· * ·) (fromVector [1, 2] [2]) (fromVector [3, 4] [2]) ∧
    divV (fromVector [1, 2] [2]) (fromVector [3, 4] [2]) =
      elementwiseOp (· / ·) (fromVector [1, 2] [2]) (fromVector [3, 4] [2]) :=
  C7_equal_shape_broadcast_is_elementwise (fromVector [1, 2] [2]) (fromVector [3, 4] [2])
    rfl rfl rfl (by decide) (by decide)

/-- C4 counterexample: take the rank-3 tensor T with entries 0..7 in shape
[2,2,2] and its view A transposed in the two BATCH-forming dimensions (0,1);
A is shape-compatible with the dense B below, yet mm's element at batch 1,
row 0, column 0 is 4 while the dot product of A's row and B's column addressed
through the operands' own stride vectors is 2: the kernel computes each
operand's batch offset densely (z*height*sharedDim), not through strides. -/
theorem C4_batch_transposed_view_counterexample :
    mmMatchesStridedDot (transposeT (fromVector [0, 1, 2, 3, 4, 5, 6, 7] [2, 2, 2]) 0 1)
      (fromVector [1, 0, 0, 1, 1, 0, 0, 1] [2, 2, 2]) = false ∧
    indexT (mmT (transposeT (fromVector [0, 1, 2, 3, 4, 5, 6, 7] [2, 2, 2]) 0 1)
        (fromVector [1, 0, 0, 1, 1, 0, 0, 1] [2, 2, 2])) [1, 0, 0] = 4 ∧
    stridedDotVal (transposeT (fromVector [0, 1, 2, 3, 4, 5, 6, 7] [2, 2, 2]) 0 1)
      (fromVector [1, 0, 0, 1, 1, 0, 0, 1] [2, 2, 2]) [1, 0, 0] = 2 := by
  refine ⟨?_, ?_, ?_⟩ <;> decide

theorem denseStrides_append2 (bs : List Nat) (x y : Nat) :
    denseStrides (bs ++ [x, y]) = (denseStrides bs).map (· * (x * y)) ++ [y, 1] := by
  induction bs with
  | nil => simp [denseStrides, densePair]
  | cons d rest ih =>
    rw [List.cons_append, denseStrides_cons, ih, denseStrides_cons]
    rw [List.prod_append, List.map_cons, List.cons_append]
    simp [List.prod_cons]

theorem sum_zipWith_map_mul (xs bs2 : List Nat) (M : Nat) :
    (List.zipWith (· * ·) (xs.map (· * M)) bs2).sum =
      (List.zipWith (· * ·) xs bs2).sum * M := by
  induction xs generalizing bs2 with
  | nil => simp
  | cons x xs ih =>
    cases bs2 with
    | nil => simp
    | cons b bs2 =>
      simp only [List.map_cons, List.zipWith_cons_cons, List.sum_cons, ih]
      ring

theorem flat_lt (bc bs : List Nat) (hb : List.Forall₂ (· < ·) bc bs) :
    (List.zipWith (· * ·) (denseStrides bs) bc).sum < bs.prod := by
  induction hb with
  | nil => simp [denseStrides, densePair]
  | @cons x d bc bs hxd htail ih =>
    rw [denseStrides_cons, List.zipWith_cons_cons, List.sum_cons, List.prod_cons]
    have h1 : (List.zipWith (· * ·) (denseStrides bs) bc).sum + 1 ≤ bs.prod := ih
    have h2 : bs.prod * x + bs.prod ≤ bs.prod * d := by
      have := Nat.mul_le_mul_left bs.prod (Nat.succ_le_of_lt hxd)
      simpa [Nat.mul_succ] using this
    have h3 : d * bs.prod = bs.prod * d := Nat.mul_comm d bs.prod
    omega

theorem set_last_append {α : Type _} (l : List α) (x y w : α) :
    (l ++ [x, y]).set (l.length + 1) w = l ++ [x, w] := by
  induction l with
  | nil => rfl
  | cons a t ih => simp [List.set_cons_succ, ih]

theorem getD_append_pair_fst {α : Type _} (l : List α) (x y d : α) (k : Nat)
    (hk : k = l.length) :
    (l ++ [x, y]).getD k d = x := by
  subst hk
  rw [List.getD_eq_getElem?_getD, List.getElem?_append_right (Nat.le_refl _)]
  simp

theorem getD_append_pair_snd {α : Type _} (l : List α) (x y d : α) (k : Nat)
    (hk : k = l.length + 1) :
    (l ++ [x, y]).getD k d = y := by
  subst hk
  rw [List.getD_eq_getElem?_getD, List.getElem?_append_right (by omega)]
  simp

theorem foldl_add_congr (l : List Nat) (f g : Nat → Int) (a : Int)
    (h : ∀ i ∈ l, f i = g i) :
    l.foldl (fun acc i => acc + f i) a = l.foldl (fun acc i => acc + g i) a := by
  induction l generalizing a with
  | nil => rfl
  | cons x t ih =>
    simp only [List.foldl_cons]
    rw [h x (by simp)]
    exact ih _ (fun i hi => h i (by simp [hi]))

theorem take_append_pair {α : Type _} (l : List α) (x y : α) (k : Nat)
    (hk : k = l.length) :
    (l ++ [x, y]).take k = l := by
  subst hk
  exact List.take_left l [x, y]

/-- C4 amended: for shape-compatible operands whose leading (batch) strides
are the dense row-major strides for their shape — which covers dense tensors
and views transposed in the two trailing matrix dimensions, whose trailing
strides a1,a2 / b1,b2 are arbitrary here — every element of mm at
(batch, row, column) equals the dot product over the shared dimension of
tensor1's row and tensor2's column addressed through each operand's own
stride vector. -/
theorem C4_mm_strided_dot_dense_batch
    (t1 t2 : TensorV) (bs bc : List Nat) (H S W a1 a2 b1 b2 r c : Nat)
    (hsh1 : t1.shape = bs ++ [H, S]) (hsh2 : t2.shape = bs ++ [S, W])
    (hst1 : t1.strides = (denseStrides bs).map (· * (H * S)) ++ [a1, a2])
    (hst2 : t2.strides = (denseStrides bs).map (· * (S * W)) ++ [b1, b2])
    (hb : List.Forall₂ (· < ·) bc bs) (hr : r < H) (hc : c < W) :
    indexT (mmT t1 t2) (bc ++ [r, c]) = stridedDotVal t1 t2 (bc ++ [r, c]) := by
  have hlb : bc.length = bs.length := List.Forall₂.length_eq hb
  have hH : 0 < H := by omega
  have hW : 0 < W := by omega
  have hHW : 0 < H * W := Nat.mul_pos hH hW
  have hshape : mmShape t1.shape t2.shape = bs ++ [H, W] := by
    rw [hsh1, hsh2]
    unfold mmShape
    rw [List.length_append, List.length_append]
    simp only [List.length_cons, List.length_nil]
    rw [getD_append_pair_snd bs S W 0 (bs.length + 2 - 1) (by omega)]
    rw [show bs.length + 2 - 1 = bs.length + 1 from by omega, set_last_append]
  have hprod : nElements (bs ++ [H, W]) = bs.prod * (H * W) := by
    simp [nElements, List.prod_append]
  simp only [indexT, stridedDotVal, mmT]
  rw [hshape, hsh1, hst1, hst2, hprod]
  rw [List.length_append, List.length_append]
  simp only [List.length_cons, List.length_nil]
  rw [show bs.length + 2 - 2 = bs.length from by omega,
    show bs.length + 2 - 1 = bs.length + 1 from by omega]
  rw [getD_append_pair_fst bs H W 0 bs.length rfl,
    getD_append_pair_snd bs H W 0 (bs.length + 1) rfl,
    getD_append_pair_snd bs H S 0 (bs.length + 1) rfl,
    getD_append_pair_fst ((denseStrides bs).map (· * (H * S))) a1 a2 0 bs.length
      (by rw [List.length_map, denseStrides_length]),
    getD_append_pair_snd ((denseStrides bs).map (· * (H * S))) a1 a2 0 (bs.length + 1)
      (by rw [List.length_map, denseStrides_length]),
    getD_append_pair_fst ((denseStrides bs).map (· * (S * W))) b1 b2 0 bs.length
      (by rw [List.length_map, denseStrides_length]),
    getD_append_pair_snd ((denseStrides bs).map (· * (S * W))) b1 b2 0 (bs.length + 1)
      (by rw [List.length_map, denseStrides_length]),
    take_append_pair bc r c bs.length hlb.symm,
    getD_append_pair_fst bc r c 0 bs.length hlb.symm,
    getD_append_pair_snd bc r c 0 (bs.length + 1) (by omega)]
  rw [denseStrides_append2 bs H W,
    List.zipWith_append (· * ·) ((denseStrides bs).map (· * (H * W))) [W, 1] bc [r, c]
      (by rw [List.length_map, denseStrides_length, hlb]),
    List.sum_append, sum_zipWith_map_mul]
  simp only [List.zipWith_cons_cons, List.zipWith_nil_right, List.sum_cons,
    List.sum_nil, Nat.one_mul, Nat.add_zero]
  set F := (List.zipWith (· * ·) (denseStrides bs) bc).sum with hFdef
  have hF : F < bs.prod := flat_lt bc bs hb
  have hrem : W * r + c < H * W := by
    have h1 : W * r + c < W * (r + 1) := by
      rw [Nat.mul_add, Nat.mul_one]
      omega
    have h2 : W * (r + 1) ≤ W * H := Nat.mul_le_mul_left W (by omega)
    have h3 : W * H = H * W := Nat.mul_comm W H
    omega
  have hKlt : F * (H * W) + (W * r + c) < bs.prod * (H * W) := by
    have h1 : F * (H * W) + (W * r + c) < (F + 1) * (H * W) := by
      rw [Nat.add_mul, Nat.one_mul]
      omega
    have h2 : (F + 1) * (H * W) ≤ bs.prod * (H * W) :=
      Nat.mul_le_mul_right (H * W) (by omega)
    omega
  rw [map_range_getD _ _ _ hKlt]
  have hsplit : F * (H * W) + (W * r + c) = (W * r + c) + (H * W) * F := by ring
  have hz : (F * (H * W) + (W * r + c)) / (H * W) = F := by
    rw [hsplit, Nat.add_mul_div_left _ _ hHW, Nat.div_eq_of_lt hrem, Nat.zero_add]
  have hm : (F * (H * W) + (W * r + c)) % (H * W) = W * r + c := by
    rw [hsplit, Nat.add_mul_mod_self_left, Nat.mod_eq_of_lt hrem]
  have hsplit2 : W * r + c = c + W * r := by ring
  have hrow : (W * r + c) / W = r := by
    rw [hsplit2, Nat.add_mul_div_left _ _ hW, Nat.div_eq_of_lt hc, Nat.zero_add]
  have hcol : (W * r + c) % W = c := by
    rw [hsplit2, Nat.add_mul_mod_self_left, Nat.mod_eq_of_lt hc]
  rw [hz, hm, hrow, hcol]
  apply foldl_add_congr
  intro i _
  rw [List.zipWith_append (· * ·) ((denseStrides bs).map (· * (H * S))) [a1, a2] bc [r, i]
      (by rw [List.length_map, denseStrides_length, hlb]),
    List.zipWith_append (· * ·) ((denseStrides bs).map (· * (S * W))) [b1, b2] bc [i, c]
      (by rw [List.length_map, denseStrides_length, hlb]),
    List.sum_append, List.sum_append, sum_zipWith_map_mul, sum_zipWith_map_mul]
  simp only [List.zipWith_cons_cons, List.zipWith_nil_right, List.sum_cons,
    List.sum_nil, Nat.add_zero]
  ring_nf

/-- Closed instance of the amended C4 at a batch of two 2x2 matrices, the
first operand a view transposed in its two matrix dimensions. -/
theorem C4_mm_strided_dot_dense_batch_witness :
    indexT (mmT (transposeT (fromVector [0, 1, 2, 3, 4, 5, 6, 7] [2, 2, 2]) 1 2)
        (fromVector [1, 0, 0, 1, 1, 0, 0, 1] [2, 2, 2])) ([1] ++ [0, 0]) =
      stridedDotVal (transposeT (fromVector [0, 1, 2, 3, 4, 5, 6, 7] [2, 2, 2]) 1 2)
        (fromVector [1, 0, 0, 1, 1, 0, 0, 1] [2, 2, 2]) ([1] ++ [0, 0]) :=
  C4_mm_strided_dot_dense_batch _ _ [2] [1] 2 2 2 1 2 2 1 0 0
    (by decide) (by decide) (by decide) (by decide)
    (List.Forall₂.cons (by omega) List.Forall₂.nil) (by omega) (by omega)
